import Mathlib

/-!
Verification of the diff GitHub action (`.github/actions/diff/src/`): a shallow
embedding, in Lean 4, of the Python sources `utils.py`, `main.py`, `pr_events.py`,
`push_events.py` and `github_actions.py`, together with theorems settling the
frozen claims about them.

Conventions of the embedding:
* Python `str` values are `String`; where character-level reasoning is needed
  the underlying `List Char` is used (`String.data`).
* Python dict/TypedDict records are Lean structures with the same field names.
* External effects (environment variables, subprocesses, the GitHub API) are
  passed in explicitly as oracle records; a failing subprocess is `none` or
  `Except.error`, mirroring `subprocess.CalledProcessError`.
* The action runs on a Linux runner: `os.linesep` is `"\n"` and `PurePath` is
  `PurePosixPath` (case-sensitive, `/` separator).
-/

/-! ### Glob matching: `pathlib.PurePath.full_match` (CPython 3.13)

`utils.filter_paths_with_patterns` and `main.filter_changed_files` match paths
with `PurePath(path).full_match(pattern)`.  CPython 3.13 implements
`full_match` by (1) normalising both the path and the pattern through
`PurePosixPath.__str__`, and (2) compiling the normalised pattern with
`glob.translate(pat, recursive=True, include_hidden=True, seps='/')` into an
anchored regular expression which is then run on the normalised path string.
The translation splits the pattern on `/` and emits, per part:
  * `*`   -> `[^/]+/` when further parts follow, `[^/]+` when last
  * `**`  -> `(?:.+/)?` when further parts follow (skipped if the next part is
             also `**`), `.*` when last
  * other -> `fnmatch` translation (`*` -> `[^/]*`, `?` -> `[^/]`, other
             characters literal; consecutive `*` collapse), plus `/` when
             further parts follow.
We embed that regular-expression language as `Piece` and implement the matcher
directly.  (Bracket character classes of `fnmatch` are modelled as literal `[`:
no pattern in this repository, its tests or the claims contains one.)
-/

inductive Piece where
  | lit (c : Char)
  | notSep
  | starNoSep
  | starAny
  | starSlash
  | anySegs
deriving DecidableEq

/-- Fuel-based anchored matcher for a `Piece` list against a character list.
Every recursive call strictly decreases `ps.length + s.length`, so fuel
`ps.length + s.length + 1` always suffices (`pmatchF_canon`). -/
def pmatchF : Nat → List Piece → List Char → Bool
  | 0, _, _ => false
  | _ + 1, [], s => s.isEmpty
  | _ + 1, .lit _ :: _, [] => false
  | f + 1, .lit c :: ps, a :: t => a == c && pmatchF f ps t
  | _ + 1, .notSep :: _, [] => false
  | f + 1, .notSep :: ps, a :: t => a != '/' && pmatchF f ps t
  | f + 1, .starNoSep :: ps, [] => pmatchF f ps []
  | f + 1, .starNoSep :: ps, a :: t =>
      pmatchF f ps (a :: t) || (a != '/' && pmatchF f (.starNoSep :: ps) t)
  | f + 1, .starAny :: ps, [] => pmatchF f ps []
  | f + 1, .starAny :: ps, a :: t => pmatchF f ps (a :: t) || pmatchF f (.starAny :: ps) t
  | _ + 1, .starSlash :: _, [] => false
  | f + 1, .starSlash :: ps, a :: t =>
      (a == '/' && pmatchF f ps t) || pmatchF f (.starSlash :: ps) t
  | f + 1, .anySegs :: ps, [] => pmatchF f ps []
  | f + 1, .anySegs :: ps, a :: t => pmatchF f ps (a :: t) || pmatchF f (.starSlash :: ps) t

/-- Anchored match of a translated glob pattern against a string. -/
def pmatch (ps : List Piece) (s : List Char) : Bool :=
  pmatchF (ps.length + s.length + 1) ps s

/-- `fnmatch._translate` for the posix flavour used by `full_match`:
`*` becomes `[^/]*` (consecutive `*` collapse), `?` becomes `[^/]`, everything
else is literal (bracket classes are not modelled, see above). -/
def fnmatchPieces : List Char → List Piece
  | [] => []
  | a :: t =>
    if a = '*' then
      match t with
      | '*' :: _ => fnmatchPieces t
      | _ => .starNoSep :: fnmatchPieces t
    else if a = '?' then .notSep :: fnmatchPieces t
    else .lit a :: fnmatchPieces t

/-- `glob.translate` applied to the pattern parts (the pattern split on `/`),
`recursive=True`, `include_hidden=True`. -/
def translateParts : List (List Char) → List Piece
  | [] => []
  | [p] =>
    if p = ['*'] then [.notSep, .starNoSep]
    else if p = ['*', '*'] then [.starAny]
    else fnmatchPieces p
  | p :: next :: rest =>
    (if p = ['*'] then [.notSep, .starNoSep, .lit '/']
     else if p = ['*', '*'] then (if next = ['*', '*'] then [] else [.anySegs])
     else fnmatchPieces p ++ [.lit '/']) ++ translateParts (next :: rest)

/-- `re.split(sep, s)` for a single separator character (also the behaviour of
Python `str.split(sep)`). -/
def splitOnChar (c : Char) : List Char → List (List Char)
  | [] => [[]]
  | a :: t =>
    if a = c then [] :: splitOnChar c t
    else
      match splitOnChar c t with
      | h :: r => (a :: h) :: r
      | [] => [[a]]

/-- `posixpath.splitroot`: the `(root, rest)` decomposition used by
`PurePosixPath` (drive is always empty on posix).  One leading slash or three
or more give root `/` and rest `p[1:]`; exactly two give root `//` and rest
`p[2:]`. -/
def posixSplitRoot : List Char → List Char × List Char
  | '/' :: rest =>
    match rest with
    | '/' :: rest2 =>
      match rest2 with
      | '/' :: _ => (['/'], rest)
      | _ => (['/', '/'], rest2)
    | _ => (['/'], rest)
  | s => ([], s)

/-- Python `sep.join` for `sep = "/"`. -/
def joinSlash : List (List Char) → List Char
  | [] => []
  | [p] => p
  | p :: ps => p ++ '/' :: joinSlash ps

/-- `str(PurePosixPath(s))`: split off the root, split the rest on `/`,
drop empty and `.` components, re-join; the empty result renders as `.`. -/
def posixNormalize (s : List Char) : List Char :=
  let root := (posixSplitRoot s).1
  let rest := (posixSplitRoot s).2
  let parsed := (splitOnChar '/' rest).filter (fun x => !x.isEmpty && x != ['.'])
  if root.isEmpty && parsed.isEmpty then ['.']
  else root ++ joinSlash parsed

/-- Translate a (normalised) pattern string into matcher pieces. -/
def translatePat (pat : List Char) : List Piece :=
  translateParts (splitOnChar '/' pat)

/-- `PurePosixPath(path).full_match(pattern)` (CPython 3.13). -/
def fullMatch (path pattern : List Char) : Bool :=
  pmatch (translatePat (posixNormalize pattern)) (posixNormalize path)

/-- `full_match` on Python strings. -/
def fullMatchStr (path pattern : String) : Bool :=
  fullMatch path.data pattern.data

example : fullMatchStr "new.py" "**/*.py" = true := by decide
example : fullMatchStr "a/b/c.py" "**/*.py" = true := by decide
example : fullMatchStr "a/b/c.txt" "**/*.py" = false := by decide
example : fullMatchStr "a.ext/." "**/*.ext" = true := by decide
example : fullMatchStr "/x.ext" "**/*.ext" = false := by decide
example : fullMatchStr "/a/b.ext" "**/*.ext" = true := by decide
example : fullMatchStr "a/b" "a/*" = true := by decide
example : fullMatchStr "a/b/c" "a/*" = false := by decide
example : fullMatchStr "anything/here" "**/*" = true := by decide

/-! ### Data model

`utils.FilesByStatus` (no `all` key), `pr_events.FilesByStatus` (with `all`;
imported into `main.py` under the name `ChangedFilesByStatus`), and the
rename-pair dicts `{old, new}`.  The `all` category of the pr-events structure
holds Python `str` values when built by `categorize_files`, but
`main.filter_changed_files` appends `PurePath` objects to it, so its items are
a sum of the two. -/

structure RenamedPair where
  old : String
  new : String
deriving DecidableEq

inductive AllItem where
  | plain (s : String)
  | purePath (s : String)
deriving DecidableEq

/-- The path string carried by an `all`-category item (`PurePath(x)` and `x`
match the same patterns). -/
def AllItem.pathStr : AllItem → String
  | .plain s => s
  | .purePath s => s

/-- `utils.FilesByStatus`. -/
structure FilesByStatus where
  added : List String
  modified : List String
  removed : List String
  renamed : List RenamedPair
deriving DecidableEq

/-- The dict literal actually returned by `utils.filter_files_by_patterns`:
it has only the keys `added`, `modified`, `removed` (no `renamed`). -/
structure FilteredByStatus where
  added : List String
  modified : List String
  removed : List String
deriving DecidableEq

/-- `pr_events.FilesByStatus`, used in `main.py` as `ChangedFilesByStatus`. -/
structure ChangedFilesByStatus where
  added : List String
  modified : List String
  removed : List String
  renamed : List RenamedPair
  all : List AllItem
deriving DecidableEq

/-- `pr_events.FileChange`: one entry of the GitHub API file list. -/
structure FileChange where
  filename : String
  status : String
  previous_filename : Option String
deriving DecidableEq

/-- `main.PullRequestOutput`. -/
structure PullRequestOutput where
  added : List String
  modified : List String
  deleted : List String
deriving DecidableEq

/-! ### `utils.py` -/

/-- `utils.filter_paths_with_patterns`: the empty pattern list and the pattern
list `["**/*"]` short-circuit to the input; otherwise keep the paths matching
at least one pattern. -/
def filter_paths_with_patterns (file_paths : List String) (patterns : List String) :
    List String :=
  if patterns = [] ∨ patterns = ["**/*"] then file_paths
  else file_paths.filter (fun p => patterns.any (fun pat => fullMatchStr p pat))

/-- `utils.filter_files_by_patterns`: filter the three plain categories, then
for each rename pair append the filtered old path to `removed` and the
filtered new path to `added` unless already present.  The returned dict has no
`renamed` key. -/
def filter_files_by_patterns (files : FilesByStatus) (patterns : List String) :
    FilteredByStatus :=
  let base : FilteredByStatus :=
    { added := filter_paths_with_patterns files.added patterns
      modified := filter_paths_with_patterns files.modified patterns
      removed := filter_paths_with_patterns files.removed patterns }
  files.renamed.foldl
    (fun acc item =>
      let acc1 :=
        if item.old ∈ acc.removed then acc
        else { acc with removed := acc.removed ++ filter_paths_with_patterns [item.old] patterns }
      if item.new ∈ acc1.added then acc1
      else { acc1 with added := acc1.added ++ filter_paths_with_patterns [item.new] patterns })
    base

/-! ### `pr_events.py` -/

/-- `pr_events.categorize_files`: bucket API entries by status; a rename is
recorded only when `previous_filename` is present and non-empty; every entry's
current filename is appended to `all`. -/
def categorize_files (files : List FileChange) : ChangedFilesByStatus :=
  files.foldl
    (fun categories file =>
      let categories :=
        if file.status = "added" then
          { categories with added := categories.added ++ [file.filename] }
        else if file.status = "modified" then
          { categories with modified := categories.modified ++ [file.filename] }
        else if file.status = "removed" then
          { categories with removed := categories.removed ++ [file.filename] }
        else if file.status = "renamed" then
          let previous := file.previous_filename.getD ""
          if previous ≠ "" then
            { categories with renamed := categories.renamed ++ [⟨previous, file.filename⟩] }
          else categories
        else categories
      { categories with all := categories.all ++ [.plain file.filename] })
    ⟨[], [], [], [], []⟩

/-- Oracle for the effects of `pr_events`: the PR number read from the event
payload (`None` on a missing/bad payload or a payload without a number) and
the `gh api .../pulls/N/files --paginate` call (`Except.error` covers a
`CalledProcessError` as well as unparsable JSON output). -/
structure PrOracle where
  eventPrNumber : Option Int
  api : Int → Except String (List FileChange)

/-- `pr_events.get_pr_changed_files`: resolve the PR number (an explicit
argument that is `None` or `0` falls back to the event payload; an unresolved
or zero number yields `None`), call the API, categorize; every external
failure is caught and converted to `None`. -/
def get_pr_changed_files (_token : Option String) (pr_number : Option Int)
    (o : PrOracle) : Option ChangedFilesByStatus :=
  let pr_num : Option Int :=
    match pr_number with
    | some n => if n ≠ 0 then some n else o.eventPrNumber
    | none => o.eventPrNumber
  match pr_num with
  | none => none
  | some n =>
    if n = 0 then none
    else
      match o.api n with
      | .error _ => none
      | .ok files => some (categorize_files files)

/-! ### `main.py` -/

/-- `main.filter_changed_files`: fast path for `[]` / `["**/*"]`; otherwise
filter `added`, `modified`, `removed` and `all`, leave `renamed` empty, and —
because the loop variable `category` still holds `"all"` after the category
loop — append matching old/new rename paths (as `PurePath` objects) to the
`all` category. -/
def filter_changed_files (changed_files : ChangedFilesByStatus) (filters : List String) :
    ChangedFilesByStatus :=
  if filters = [] ∨ filters = ["**/*"] then changed_files
  else
    let matchesAny := fun (p : String) => filters.any (fun pat => fullMatchStr p pat)
    let filtered_files : ChangedFilesByStatus :=
      { added := changed_files.added.filter matchesAny
        modified := changed_files.modified.filter matchesAny
        removed := changed_files.removed.filter matchesAny
        renamed := []
        all := changed_files.all.filter (fun e => matchesAny e.pathStr) }
    changed_files.renamed.foldl
      (fun acc renamed_file =>
        let acc1 :=
          if matchesAny renamed_file.old then
            { acc with all := acc.all ++ [.purePath renamed_file.old] }
          else acc
        if matchesAny renamed_file.new then
          { acc1 with all := acc1.all ++ [.purePath renamed_file.new] }
        else acc1)
      filtered_files

/-- `main.process_renamed_files`: fold each rename record into the `added`
(new path) and `removed` (old path) categories, keeping the rename records. -/
def process_renamed_files (changed_files : ChangedFilesByStatus) : ChangedFilesByStatus :=
  changed_files.renamed.foldl
    (fun acc renamed_file =>
      { acc with
        added := acc.added ++ [renamed_file.new]
        removed := acc.removed ++ [renamed_file.old] })
    changed_files

/-! ### `push_events.py` -/

/-- Python `str.strip()` restricted to ASCII whitespace (the stripped values
here are `git rev-parse` stdout, i.e. a SHA plus a trailing newline). -/
def isPySpace (c : Char) : Bool :=
  c = ' ' || c = '\t' || c = '\n' || c = '\r' || c = '\x0b' || c = '\x0c'

/-- Python `str.strip()`. -/
def pyStrip (s : String) : String :=
  ⟨((s.data.dropWhile isPySpace).reverse.dropWhile isPySpace).reverse⟩

/-- Python `str.splitlines()` for `\n`-terminated text: split on `\n`, with no
trailing empty line. -/
def pySplitlines (s : List Char) : List (List Char) :=
  let r := splitOnChar '\n' s
  if r.getLast? = some [] then r.dropLast else r

/-- Oracle for the effects of `push_events`: the `GITHUB_BEFORE` /
`GITHUB_AFTER` environment variables, the two `git rev-parse` fallbacks
(`none` is a `CalledProcessError`, `some out` the captured stdout) and
`git diff --name-status base...head` (returning captured stdout on success). -/
structure PushOracle where
  envBefore : Option String
  envAfter : Option String
  revParseHead1 : Option String
  revParseHead : Option String
  diff : String → String → Except String String

/-- The all-zero null SHA signalling a brand-new branch. -/
def zeroSha : String := "0000000000000000000000000000000000000000"

/-- The canonical git empty-tree object. -/
def emptyTreeSha : String := "4b825dc642cb6eb9a060e54bf8d69288fbee4904"

/-- `push_events.parse_git_shas_from_env`: an absent, empty or all-zero
`GITHUB_BEFORE` falls back to `git rev-parse HEAD~1`, and if that command
fails, to the empty-tree SHA; an absent or empty `GITHUB_AFTER` falls back to
`git rev-parse HEAD`, whose failure raises `ValueError` (the `Except.error`
case). -/
def parse_git_shas_from_env (o : PushOracle) : Except String (String × String) :=
  let base0 := o.envBefore.getD ""
  let base_sha :=
    if base0 = "" ∨ base0 = zeroSha then
      match o.revParseHead1 with
      | some out => pyStrip out
      | none => emptyTreeSha
    else base0
  let head0 := o.envAfter.getD ""
  if head0 = "" then
    match o.revParseHead with
    | some out => .ok (base_sha, pyStrip out)
    | none => .error "Failed to determine HEAD SHA"
  else .ok (base_sha, head0)

/-- The `{A, M, D, R}` buckets built by
`push_events.get_changed_files_from_git`; `R` entries hold
`old_path ++ "\t" ++ new_path`. -/
structure GitChanges where
  A : List String
  M : List String
  D : List String
  R : List String
deriving DecidableEq

/-- Parsing of one `git diff --name-status` line into the buckets.  A line
whose status starts with `A`/`M`/`D` needs a second tab-separated field and
an `R` line a third; a missing field is an uncaught `IndexError`
(`Except.error`), which the caller's blanket `except` turns into `None`. -/
def parseNameStatusLine (changes : GitChanges) (line : List Char) :
    Except String GitChanges :=
  if (pyStrip ⟨line⟩) = "" then .ok changes
  else
    let parts := splitOnChar '\t' line
    let status := parts.headD []
    match status with
    | 'A' :: _ =>
      match parts[1]? with
      | some p => .ok { changes with A := changes.A ++ [⟨p⟩] }
      | none => .error "IndexError"
    | 'M' :: _ =>
      match parts[1]? with
      | some p => .ok { changes with M := changes.M ++ [⟨p⟩] }
      | none => .error "IndexError"
    | 'D' :: _ =>
      match parts[1]? with
      | some p => .ok { changes with D := changes.D ++ [⟨p⟩] }
      | none => .error "IndexError"
    | 'R' :: _ =>
      match parts[1]?, parts[2]? with
      | some old, some new => .ok { changes with R := changes.R ++ [⟨old ++ '\t' :: new⟩] }
      | _, _ => .error "IndexError"
    | _ => .ok changes

/-- `push_events.get_changed_files_from_git`: run the diff command and fold
its stdout lines into the buckets; a failing command propagates
(`CalledProcessError`), as does a malformed line. -/
def get_changed_files_from_git (o : PushOracle) (base_sha head_sha : String) :
    Except String GitChanges :=
  match o.diff base_sha head_sha with
  | .error e => .error e
  | .ok stdout =>
    (pySplitlines stdout.data).foldlM parseNameStatusLine ⟨[], [], [], []⟩

/-- `old_path, new_path = renamed_path.split("\t")`: exactly two fields,
otherwise `ValueError` (the `none` case). -/
def splitRenamedPath (renamed_path : String) : Option RenamedPair :=
  match splitOnChar '\t' renamed_path.data with
  | [old, new] => some ⟨⟨old⟩, ⟨new⟩⟩
  | _ => none

/-- `push_events.get_push_changed_files`: resolve missing SHAs from the
environment, diff, convert the buckets to `FilesByStatus`, split the rename
entries, and filter; every raised error (`CalledProcessError`, `ValueError`,
`IndexError`) is caught and converted to `None`.  A `patterns` value of `None`
behaves like `[]` in `filter_files_by_patterns` (both are falsy). -/
def get_push_changed_files (base_sha head_sha : Option String)
    (patterns : Option (List String)) (o : PushOracle) : Option FilteredByStatus :=
  let b0 := base_sha.getD ""
  let h0 := head_sha.getD ""
  let resolved : Except String (String × String) :=
    if b0 = "" ∨ h0 = "" then
      match parse_git_shas_from_env o with
      | .error e => .error e
      | .ok (pb, ph) => .ok ((if b0 ≠ "" then b0 else pb), (if h0 ≠ "" then h0 else ph))
    else .ok (b0, h0)
  match resolved with
  | .error _ => none
  | .ok (b, h) =>
    match get_changed_files_from_git o b h with
    | .error _ => none
    | .ok changes =>
      match changes.R.mapM splitRenamedPath with
      | none => none
      | some renamedPairs =>
        some (filter_files_by_patterns
          ⟨changes.A, changes.M, changes.D, renamedPairs⟩ (patterns.getD []))

/-! ### `github_actions.py`: command value conversion, escaping, key/value
messages, and `main.set_outputs` -/

/-- `GitHubAction._to_command_value` restricted to the values this repository
passes (`None` or `str`); other values would be JSON-serialised. -/
def to_command_value : Option String → String
  | none => ""
  | some s => s

/-- Python `str.replace(old, new)` for a single-character `old`: every
occurrence is replaced, left to right. -/
def pyReplace1 (old : Char) (new : List Char) : List Char → List Char
  | [] => []
  | a :: t => (if a = old then new else [a]) ++ pyReplace1 old new t

/-- `GitHubAction._escape_data`: `.replace("%", "%25").replace("\r",
"%0D").replace("\n", "%0A")`, in that order. -/
def escape_data (s : List Char) : List Char :=
  pyReplace1 '\n' "%0A".data (pyReplace1 '\r' "%0D".data (pyReplace1 '%' "%25".data s))

/-- `GitHubAction._escape_property`: the three data replacements followed by
`.replace(":", "%3A").replace(",", "%2C")`. -/
def escape_property (s : List Char) : List Char :=
  pyReplace1 ',' "%2C".data
    (pyReplace1 ':' "%3A".data
      (pyReplace1 '\n' "%0A".data
        (pyReplace1 '\r' "%0D".data
          (pyReplace1 '%' "%25".data s))))

/-- Character-level reading of the `_escape_data` replacement table (the three
replacements are independent per character; escaping `%` first means the `%`
introduced by the `\r`/`\n` escapes is never re-escaped). -/
def escDataChar (c : Char) : List Char :=
  if c = '%' then "%25".data
  else if c = '\r' then "%0D".data
  else if c = '\n' then "%0A".data
  else [c]

/-- Character-level reading of the `_escape_property` replacement table. -/
def escPropChar (c : Char) : List Char :=
  if c = '%' then "%25".data
  else if c = '\r' then "%0D".data
  else if c = '\n' then "%0A".data
  else if c = ':' then "%3A".data
  else if c = ',' then "%2C".data
  else [c]

/-- The per-character escaping map, applied across a whole string. -/
def escapeCharwise (esc : Char → List Char) : List Char → List Char
  | [] => []
  | a :: t => esc a ++ escapeCharwise esc t

/-- `GitHubAction._prepare_key_value_message`: one delimiter
`ghadelimiter_<uuid4>` is generated for the call (no retry); a key or
converted value containing it is a hard `ValueError`; otherwise the returned
block is `key<<delimiter\nvalue\ndelimiter` (`os.linesep` is `"\n"`). -/
def prepare_key_value_message (key : String) (value : Option String)
    (uuid : String) : Except String String :=
  let delimiter := "ghadelimiter_" ++ uuid
  let converted_value := to_command_value value
  if delimiter.data <:+: key.data then
    .error "Unexpected input: name should not contain the delimiter"
  else if delimiter.data <:+: converted_value.data then
    .error "Unexpected input: value should not contain the delimiter"
  else .ok (key ++ "<<" ++ delimiter ++ "\n" ++ converted_value ++ "\n" ++ delimiter)

/-- One hex digit, lower case, as produced by `json.dumps` `\uXXXX` escapes. -/
def hexDigit (n : Nat) : Char :=
  if n < 10 then Char.ofNat ('0'.toNat + n) else Char.ofNat ('a'.toNat + (n - 10))

/-- Four hex digits. -/
def hex4 (n : Nat) : List Char :=
  [hexDigit (n / 4096 % 16), hexDigit (n / 256 % 16), hexDigit (n / 16 % 16), hexDigit (n % 16)]

/-- `json.dumps` escaping of one string character (`ensure_ascii=True`):
short escapes for the two-character forms, `\uXXXX` for other control and
non-ASCII characters, surrogate pairs beyond the BMP. -/
def jsonEscapeChar (c : Char) : List Char :=
  if c = '"' then ['\\', '"']
  else if c = '\\' then ['\\', '\\']
  else if c = '\n' then ['\\', 'n']
  else if c = '\r' then ['\\', 'r']
  else if c = '\t' then ['\\', 't']
  else if c = '\x08' then ['\\', 'b']
  else if c = '\x0c' then ['\\', 'f']
  else if c.toNat < 0x20 then '\\' :: 'u' :: hex4 c.toNat
  else if c.toNat < 0x7f then [c]
  else if c.toNat < 0x10000 then '\\' :: 'u' :: hex4 c.toNat
  else
    let m := c.toNat - 0x10000
    '\\' :: 'u' :: hex4 (0xD800 + m / 1024) ++ '\\' :: 'u' :: hex4 (0xDC00 + m % 1024)

/-- `json.dumps` of a string. -/
def jsonDumpsStr (s : String) : String :=
  ⟨'"' :: escapeCharwise jsonEscapeChar s.data ++ ['"']⟩

/-- `json.dumps` of a list of strings (default separators: `", "`). -/
def jsonDumpsList (l : List String) : String :=
  "[" ++ String.intercalate ", " (l.map jsonDumpsStr) ++ "]"

/-- `json.dumps` of a `PullRequestOutput` dict (insertion order `added`,
`modified`, `deleted`; default separators `", "` and `": "`). -/
def jsonDumpsOutput (output : PullRequestOutput) : String :=
  "\x7b\"added\": " ++ jsonDumpsList output.added ++
    ", \"modified\": " ++ jsonDumpsList output.modified ++
    ", \"deleted\": " ++ jsonDumpsList output.deleted ++ "\x7d"

/-- `str(b).lower()` for a Python bool. -/
def pyBoolStr (b : Bool) : String :=
  if b then "true" else "false"

/-- `main.set_outputs`, as the ordered list of `(name, value)` pairs passed to
`action.set_output`: the `any-changed` flag (true iff any of the filtered
`added`/`modified`/`removed` lists is non-empty) and the JSON `changed-files`
object, whose `deleted` key carries the `removed` category. -/
def set_outputs (filtered_files : ChangedFilesByStatus) : List (String × String) :=
  let output : PullRequestOutput :=
    ⟨filtered_files.added, filtered_files.modified, filtered_files.removed⟩
  let has_changes : Bool :=
    decide (0 < filtered_files.added.length) || decide (0 < filtered_files.modified.length) ||
      decide (0 < filtered_files.removed.length)
  [("any-changed", pyBoolStr has_changes), ("changed-files", jsonDumpsOutput output)]

/-! ### Helper lemmas -/

/-- `pyReplace1` distributes over append. -/
theorem pyReplace1_append (o : Char) (n : List Char) (x y : List Char) :
    pyReplace1 o n (x ++ y) = pyReplace1 o n x ++ pyReplace1 o n y := by
  induction x with
  | nil => rfl
  | cons a t ih => simp [pyReplace1, ih, List.append_assoc]

/-- `pyReplace1` leaves a list without the replaced character unchanged. -/
theorem pyReplace1_of_not_mem {o : Char} (n : List Char) {l : List Char} (h : o ∉ l) :
    pyReplace1 o n l = l := by
  induction l with
  | nil => rfl
  | cons a t ih =>
    simp only [List.mem_cons, not_or] at h
    have ha : ¬a = o := fun he => h.1 he.symm
    simp [pyReplace1, ha, ih h.2]

/-- One step of `_escape_data`. -/
theorem escape_data_cons (a : Char) (s : List Char) :
    escape_data (a :: s) = escDataChar a ++ escape_data s := by
  show pyReplace1 '\n' "%0A".data (pyReplace1 '\r' "%0D".data
      ((if a = '%' then "%25".data else [a]) ++ pyReplace1 '%' "%25".data s)) = _
  rw [pyReplace1_append, pyReplace1_append]
  show _ ++ escape_data s = _
  congr 1
  by_cases h1 : a = '%'
  · subst h1; rfl
  by_cases h2 : a = '\r'
  · subst h2; simp [h1, escDataChar]; rfl
  by_cases h3 : a = '\n'
  · subst h3; simp [h1, h2, escDataChar]; rfl
  · simp [escDataChar, h1, h2, h3, pyReplace1]

/-- One step of `_escape_property`. -/
theorem escape_property_cons (a : Char) (s : List Char) :
    escape_property (a :: s) = escPropChar a ++ escape_property s := by
  show pyReplace1 ',' "%2C".data (pyReplace1 ':' "%3A".data (pyReplace1 '\n' "%0A".data
      (pyReplace1 '\r' "%0D".data
        ((if a = '%' then "%25".data else [a]) ++ pyReplace1 '%' "%25".data s)))) = _
  rw [pyReplace1_append, pyReplace1_append, pyReplace1_append, pyReplace1_append]
  show _ ++ escape_property s = _
  congr 1
  by_cases h1 : a = '%'
  · subst h1; rfl
  by_cases h2 : a = '\r'
  · subst h2; simp [h1, escPropChar]; rfl
  by_cases h3 : a = '\n'
  · subst h3; simp [h1, h2, escPropChar]; rfl
  by_cases h4 : a = ':'
  · subst h4; simp [h1, h2, h3, escPropChar]; rfl
  by_cases h5 : a = ','
  · subst h5; simp [h1, h2, h3, h4, escPropChar]; rfl
  · simp [escPropChar, h1, h2, h3, h4, h5, pyReplace1]

/-- The rename fold of `filter_changed_files` only ever appends to the `all`
category. -/
theorem filter_changed_files_fold_all (m : String → Bool) :
    ∀ (rs : List RenamedPair) (acc : ChangedFilesByStatus),
      rs.foldl
        (fun acc renamed_file =>
          let acc1 :=
            if m renamed_file.old then
              { acc with all := acc.all ++ [.purePath renamed_file.old] }
            else acc
          if m renamed_file.new then
            { acc1 with all := acc1.all ++ [.purePath renamed_file.new] }
          else acc1) acc =
      { acc with
        all := acc.all ++ rs.flatMap (fun r =>
          (if m r.old then [AllItem.purePath r.old] else []) ++
            (if m r.new then [AllItem.purePath r.new] else [])) } := by
  intro rs
  induction rs with
  | nil => intro acc; simp
  | cons r rs ih =>
    intro acc
    rw [List.foldl_cons, ih]
    by_cases ho : m r.old <;> by_cases hn : m r.new <;>
      simp [ho, hn, List.append_assoc]

/-! ### Claim theorems -/

/-- Claim C1: evaluation of the code at the failing input.  With the
fast-path pattern list `[]` and a non-empty `renamed` category,
`utils.filter_files_by_patterns` is not the identity — the rename pair
`old: a.txt, new: b.txt` is folded into the (previously empty) `removed` and
`added` categories, contradicting the repository's own
`test_filter_files_by_patterns_no_patterns`, which asserts `result == input`
on a fixture with two rename pairs. -/
theorem c1_counterexample :
    (filter_files_by_patterns ⟨[], [], [], [⟨"a.txt", "b.txt"⟩]⟩ []).removed = ["a.txt"] ∧
    (filter_files_by_patterns ⟨[], [], [], [⟨"a.txt", "b.txt"⟩]⟩ []).added = ["b.txt"] ∧
    ["a.txt"] ≠ ([] : List String) :=
  ⟨rfl, rfl, by decide⟩

/-- The part of the fast-path identity that does hold: for pattern lists `[]`
and `["**/*"]`, `main.filter_changed_files` is the identity on every category
(including a non-empty `renamed`), and `utils.filter_files_by_patterns`
leaves `added`/`modified`/`removed` unchanged provided `renamed` is empty. -/
theorem c1_fast_path_identity (c : ChangedFilesByStatus) (f : FilesByStatus)
    (patterns : List String) (hp : patterns = [] ∨ patterns = ["**/*"]) :
    filter_changed_files c patterns = c ∧
    (f.renamed = [] →
      filter_files_by_patterns f patterns = ⟨f.added, f.modified, f.removed⟩) := by
  constructor
  · unfold filter_changed_files
    rw [if_pos hp]
  · intro hr
    unfold filter_files_by_patterns
    rw [hr]
    simp only [List.foldl_nil]
    unfold filter_paths_with_patterns
    rw [if_pos hp, if_pos hp, if_pos hp]

/-- The fast-path identity at concrete inputs (note the non-empty `renamed`
category passing through `filter_changed_files` unchanged). -/
theorem c1_witness :
    filter_changed_files ⟨["x.py"], [], [], [⟨"a.txt", "b.txt"⟩], [.plain "x.py"]⟩ [] =
      ⟨["x.py"], [], [], [⟨"a.txt", "b.txt"⟩], [.plain "x.py"]⟩ ∧
    filter_files_by_patterns ⟨["x.py"], ["m.txt"], ["r.md"], []⟩ ["**/*"] =
      ⟨["x.py"], ["m.txt"], ["r.md"]⟩ :=
  ⟨(c1_fast_path_identity ⟨["x.py"], [], [], [⟨"a.txt", "b.txt"⟩], [.plain "x.py"]⟩
      ⟨[], [], [], []⟩ [] (Or.inl rfl)).1,
   (c1_fast_path_identity ⟨[], [], [], [], []⟩ ⟨["x.py"], ["m.txt"], ["r.md"], []⟩
      ["**/*"] (Or.inr rfl)).2 rfl⟩

/-- Claim C2: a pull-request event with a single renamed file
`old.py -> new.py`, folded, filtered with `["**/*.py"]` and emitted, produces
`any-changed = "true"` and a `changed-files` JSON object with
`added = ["new.py"]`, `modified = []`, `deleted = ["old.py"]` (the exact
`json.dumps` string is shown; as a JSON value it is
`{"added":["new.py"],"modified":[],"deleted":["old.py"]}`). -/
theorem c2_pr_rename_scenario :
    set_outputs (filter_changed_files (process_renamed_files
        (categorize_files [⟨"new.py", "renamed", some "old.py"⟩])) ["**/*.py"]) =
      [("any-changed", "true"),
       ("changed-files",
         "\x7b\"added\": [\"new.py\"], \"modified\": [], \"deleted\": [\"old.py\"]\x7d")] := by
  rfl

/-- Claim C3: `process_renamed_files` applied once to a set whose only content
is the rename pair `a.txt -> b.txt` yields `added = ["b.txt"]`,
`removed = ["a.txt"]`; applied twice it duplicates both entries — the fold is
not idempotent because the `renamed` records are kept. -/
theorem c3_process_renamed_not_idempotent :
    process_renamed_files ⟨[], [], [], [⟨"a.txt", "b.txt"⟩], []⟩ =
      ⟨["b.txt"], [], ["a.txt"], [⟨"a.txt", "b.txt"⟩], []⟩ ∧
    process_renamed_files (process_renamed_files ⟨[], [], [], [⟨"a.txt", "b.txt"⟩], []⟩) =
      ⟨["b.txt", "b.txt"], [], ["a.txt", "a.txt"], [⟨"a.txt", "b.txt"⟩], []⟩ :=
  ⟨rfl, rfl⟩

/-- Claim C4: `_escape_data` is exactly the per-character replacement
`% -> %25`, CR `-> %0D`, LF `-> %0A` (the `%` pass running first, so the `%`
introduced by the CR/LF escapes is never re-escaped), and `_escape_property`
is the per-character replacement that additionally maps `: -> %3A` and
`, -> %2C`. -/
theorem c4_escaping_charwise (s : List Char) :
    escape_data s = escapeCharwise escDataChar s ∧
    escape_property s = escapeCharwise escPropChar s := by
  induction s with
  | nil => exact ⟨rfl, rfl⟩
  | cons a t ih =>
    exact ⟨by rw [escape_data_cons, ih.1]; rfl,
           by rw [escape_property_cons, ih.2]; rfl⟩

/-- Claim C5: `_prepare_key_value_message` generates a single delimiter per
call and fails (with `ValueError`) exactly when the key or the converted value
contains that delimiter; otherwise it returns the block
`key<<delimiter\nvalue\ndelimiter`. -/
theorem c5_prepare_key_value_message (key : String) (value : Option String) (uuid : String) :
    ((∃ e, prepare_key_value_message key value uuid = .error e) ↔
      (("ghadelimiter_" ++ uuid).data <:+: key.data ∨
        ("ghadelimiter_" ++ uuid).data <:+: (to_command_value value).data)) ∧
    (¬ ("ghadelimiter_" ++ uuid).data <:+: key.data →
      ¬ ("ghadelimiter_" ++ uuid).data <:+: (to_command_value value).data →
      prepare_key_value_message key value uuid =
        .ok (key ++ "<<" ++ ("ghadelimiter_" ++ uuid) ++ "\n" ++ to_command_value value ++
          "\n" ++ ("ghadelimiter_" ++ uuid))) := by
  simp only [prepare_key_value_message]
  split_ifs with h1 h2
  · simp only [Except.error.injEq, exists_eq', true_iff]
    exact ⟨Or.inl h1, fun hk => absurd h1 hk⟩
  · simp only [Except.error.injEq, exists_eq', true_iff]
    exact ⟨Or.inr h2, fun _ hv => hv h2⟩
  · simp only [reduceCtorEq, exists_false, false_iff, not_or, and_true, implies_true]
    exact ⟨h1, h2⟩

/-- Claim C5, witness: at key `"k"`, value `"v"`, uuid `"u"` no collision
occurs and the delimiter block is produced. -/
theorem c5_witness :
    prepare_key_value_message "k" (some "v") "u" =
      .ok "k<<ghadelimiter_u\nv\nghadelimiter_u" :=
  (c5_prepare_key_value_message "k" (some "v") "u").2 (by decide) (by decide)

/-- Claim C6: on a push event whose `GITHUB_BEFORE` is absent, empty or the
all-zero SHA, and whose `git rev-parse HEAD~1` fallback fails, any successful
SHA resolution returns the empty-tree SHA
`4b825dc642cb6eb9a060e54bf8d69288fbee4904` as the base. -/
theorem c6_newbranch_empty_tree (o : PushOracle)
    (hb : o.envBefore.getD "" = "" ∨ o.envBefore.getD "" = zeroSha)
    (h1 : o.revParseHead1 = none) :
    ∀ p, parse_git_shas_from_env o = .ok p → p.1 = emptyTreeSha := by
  intro p hp
  simp only [parse_git_shas_from_env] at hp
  rw [if_pos hb, h1] at hp
  by_cases hh : o.envAfter.getD "" = ""
  · rw [if_pos hh] at hp
    cases hrev : o.revParseHead with
    | none => rw [hrev] at hp; exact absurd hp (by simp)
    | some out => rw [hrev] at hp; cases hp; rfl
  · rw [if_neg hh] at hp
    cases hp; rfl

/-- Claim C6, witness: `GITHUB_BEFORE` all-zero, `HEAD~1` failing, head SHA
taken from `GITHUB_AFTER`. -/
theorem c6_witness :
    parse_git_shas_from_env
        ⟨some zeroSha, some "headsha123", none, some "x", fun _ _ => .ok ""⟩ =
      .ok (emptyTreeSha, "headsha123") ∧
    (emptyTreeSha, "headsha123").1 = emptyTreeSha :=
  ⟨rfl,
   c6_newbranch_empty_tree
     ⟨some zeroSha, some "headsha123", none, some "x", fun _ _ => .ok ""⟩
     (Or.inr rfl) rfl (emptyTreeSha, "headsha123") rfl⟩

/-- Claim C7: `set_outputs` emits exactly the two outputs `any-changed`
(`"true"` iff one of `added`/`modified`/`removed` is non-empty, else
`"false"`) and `changed-files`, the JSON serialisation of the object with
exactly the keys `added`, `modified`, `deleted`, whose `deleted` key carries
the `removed` category. -/
theorem c7_set_outputs_shape (f : ChangedFilesByStatus) :
    set_outputs f =
      [("any-changed",
        if f.added = [] ∧ f.modified = [] ∧ f.removed = [] then "false" else "true"),
       ("changed-files", jsonDumpsOutput ⟨f.added, f.modified, f.removed⟩)] := by
  unfold set_outputs pyBoolStr
  rcases f with ⟨a, m, r, rn, al⟩
  cases a <;> cases m <;> cases r <;> simp

/-- Claim C9: both change-source adapters convert external failures into an
absent result (`None`) instead of raising: an unresolvable PR number, a
failing `gh api` call, a failing `git diff` command, and a failing SHA
resolution (`ValueError`) all yield `None`. -/
theorem c9_adapters_absorb_failures (token : Option String) (prArg : Option Int)
    (opr : PrOracle) (opush : PushOracle) (b h : String) (pats : Option (List String)) :
    (prArg = none → opr.eventPrNumber = none →
      get_pr_changed_files token prArg opr = none) ∧
    (∀ n e, prArg = some n → n ≠ 0 → opr.api n = .error e →
      get_pr_changed_files token prArg opr = none) ∧
    (∀ e, b ≠ "" → h ≠ "" → opush.diff b h = .error e →
      get_push_changed_files (some b) (some h) pats opush = none) ∧
    (opush.envAfter.getD "" = "" → opush.revParseHead = none →
      get_push_changed_files none none pats opush = none) := by
  refine ⟨?_, ?_, ?_, ?_⟩
  · intro hna hne
    simp [get_pr_changed_files, hna, hne]
  · intro n e hsome hnz happi
    simp [get_pr_changed_files, hsome, hnz, happi]
  · intro e hb hh hdiff
    simp [get_push_changed_files, get_changed_files_from_git, hb, hh, hdiff]
  · intro hafter hhead
    simp [get_push_changed_files, parse_git_shas_from_env, hafter, hhead]

/-- Claim C9, witness: each failure mode at a concrete input. -/
theorem c9_witness :
    get_pr_changed_files (some "tok") none ⟨none, fun _ => .ok []⟩ = none ∧
    get_pr_changed_files (some "tok") (some 7) ⟨none, fun _ => .error "boom"⟩ = none ∧
    get_push_changed_files (some "base") (some "head") (some ["*.py"])
        ⟨none, none, none, none, fun _ _ => .error "fatal: bad revision"⟩ = none ∧
    get_push_changed_files none none none
        ⟨some zeroSha, none, none, none, fun _ _ => .ok ""⟩ = none := by
  refine ⟨?_, ?_, ?_, ?_⟩
  · exact (c9_adapters_absorb_failures (some "tok") none ⟨none, fun _ => .ok []⟩
      ⟨none, none, none, none, fun _ _ => .ok ""⟩ "" "" none).1 rfl rfl
  · exact (c9_adapters_absorb_failures (some "tok") (some 7)
      ⟨none, fun _ => .error "boom"⟩
      ⟨none, none, none, none, fun _ _ => .ok ""⟩ "" "" none).2.1 7 "boom" rfl
      (by decide) rfl
  · exact (c9_adapters_absorb_failures (some "tok") none ⟨none, fun _ => .ok []⟩
      ⟨none, none, none, none, fun _ _ => .error "fatal: bad revision"⟩ "base" "head"
      (some ["*.py"])).2.2.1 "fatal: bad revision" (by decide) (by decide) rfl
  · exact (c9_adapters_absorb_failures (some "tok") none ⟨none, fun _ => .ok []⟩
      ⟨some zeroSha, none, none, none, fun _ _ => .ok ""⟩ "" "" none).2.2.2 rfl rfl

/-- Claim C10: with any pattern list other than the fast-path values, the
filtered `added`/`removed` categories are exactly the matching input entries
(no rename path is ever added to them), `renamed` is emptied, and the old/new
rename paths that match are appended — as `PurePath` objects — to the `all`
category, a consequence of the stale `category` loop variable. -/
theorem c10_renames_routed_to_all (c : ChangedFilesByStatus) (filters : List String)
    (h1 : filters ≠ []) (h2 : filters ≠ ["**/*"]) :
    (filter_changed_files c filters).added =
        c.added.filter (fun p => filters.any (fun pat => fullMatchStr p pat)) ∧
    (filter_changed_files c filters).modified =
        c.modified.filter (fun p => filters.any (fun pat => fullMatchStr p pat)) ∧
    (filter_changed_files c filters).removed =
        c.removed.filter (fun p => filters.any (fun pat => fullMatchStr p pat)) ∧
    (filter_changed_files c filters).renamed = [] ∧
    (filter_changed_files c filters).all =
        c.all.filter (fun e => filters.any (fun pat => fullMatchStr e.pathStr pat)) ++
          c.renamed.flatMap (fun r =>
            (if filters.any (fun pat => fullMatchStr r.old pat) then
                [AllItem.purePath r.old] else []) ++
              (if filters.any (fun pat => fullMatchStr r.new pat) then
                [AllItem.purePath r.new] else [])) := by
  unfold filter_changed_files
  rw [if_neg (by simp [h1, h2])]
  rw [filter_changed_files_fold_all (fun p => filters.any (fun pat => fullMatchStr p pat))]
  exact ⟨rfl, rfl, rfl, rfl, rfl⟩

/-- Claim C10, witness: a concrete set with one matching and one
non-matching path per category and a rename pair whose old side matches. -/
theorem c10_witness :
    (filter_changed_files
        ⟨["a.py", "b.txt"], [], ["c.py"], [⟨"o.py", "n.md"⟩], [.plain "a.py", .plain "b.txt"]⟩
        ["*.py"]).added = ["a.py"] ∧
    (filter_changed_files
        ⟨["a.py", "b.txt"], [], ["c.py"], [⟨"o.py", "n.md"⟩], [.plain "a.py", .plain "b.txt"]⟩
        ["*.py"]).removed = ["c.py"] ∧
    (filter_changed_files
        ⟨["a.py", "b.txt"], [], ["c.py"], [⟨"o.py", "n.md"⟩], [.plain "a.py", .plain "b.txt"]⟩
        ["*.py"]).all = [.plain "a.py", .purePath "o.py"] := by
  have h := c10_renames_routed_to_all
    ⟨["a.py", "b.txt"], [], ["c.py"], [⟨"o.py", "n.md"⟩], [.plain "a.py", .plain "b.txt"]⟩
    ["*.py"] (by decide) (by decide)
  exact ⟨h.1.trans (by decide), h.2.2.1.trans (by decide), h.2.2.2.2.trans (by decide)⟩

/-! ### Characterisation of the glob matcher (towards claim C8) -/

/-- Any two sufficiently large fuels give `pmatchF` the same value: every
recursive call strictly decreases `ps.length + s.length`. -/
theorem pmatchF_congr :
    ∀ (f g : Nat) (ps : List Piece) (s : List Char),
      ps.length + s.length < f → ps.length + s.length < g →
      pmatchF f ps s = pmatchF g ps s := by
  intro f
  induction f using Nat.strong_induction_on with
  | _ f ih =>
    intro g ps s hf hg
    obtain ⟨f', rfl⟩ : ∃ f', f = f' + 1 := ⟨f - 1, by omega⟩
    obtain ⟨g', rfl⟩ : ∃ g', g = g' + 1 := ⟨g - 1, by omega⟩
    have hf' : f' < f' + 1 := Nat.lt_succ_self f'
    cases ps with
    | nil => rfl
    | cons p ps =>
      simp only [List.length_cons] at hf hg
      cases p with
      | lit c =>
        cases s with
        | nil => rfl
        | cons a t =>
          simp only [List.length_cons] at hf hg
          simp only [pmatchF]
          rw [ih f' hf' g' ps t (by omega) (by omega)]
      | notSep =>
        cases s with
        | nil => rfl
        | cons a t =>
          simp only [List.length_cons] at hf hg
          simp only [pmatchF]
          rw [ih f' hf' g' ps t (by omega) (by omega)]
      | starNoSep =>
        cases s with
        | nil =>
          simp only [pmatchF]
          rw [ih f' hf' g' ps [] (by simp; omega) (by simp; omega)]
        | cons a t =>
          simp only [List.length_cons] at hf hg
          simp only [pmatchF]
          rw [ih f' hf' g' ps (a :: t) (by simp; omega) (by simp; omega),
            ih f' hf' g' (.starNoSep :: ps) t (by simp; omega) (by simp; omega)]
      | starAny =>
        cases s with
        | nil =>
          simp only [pmatchF]
          rw [ih f' hf' g' ps [] (by simp; omega) (by simp; omega)]
        | cons a t =>
          simp only [List.length_cons] at hf hg
          simp only [pmatchF]
          rw [ih f' hf' g' ps (a :: t) (by simp; omega) (by simp; omega),
            ih f' hf' g' (.starAny :: ps) t (by simp; omega) (by simp; omega)]
      | starSlash =>
        cases s with
        | nil => rfl
        | cons a t =>
          simp only [List.length_cons] at hf hg
          simp only [pmatchF]
          rw [ih f' hf' g' ps t (by omega) (by omega),
            ih f' hf' g' (.starSlash :: ps) t (by simp; omega) (by simp; omega)]
      | anySegs =>
        cases s with
        | nil =>
          simp only [pmatchF]
          rw [ih f' hf' g' ps [] (by simp; omega) (by simp; omega)]
        | cons a t =>
          simp only [List.length_cons] at hf hg
          simp only [pmatchF]
          rw [ih f' hf' g' ps (a :: t) (by simp; omega) (by simp; omega),
            ih f' hf' g' (.starSlash :: ps) t (by simp; omega) (by simp; omega)]

/-- `pmatch` equals `pmatchF` at any sufficient fuel. -/
theorem pmatch_eq_pmatchF (f : Nat) (ps : List Piece) (s : List Char)
    (h : ps.length + s.length < f) : pmatch ps s = pmatchF f ps s :=
  pmatchF_congr (ps.length + s.length + 1) f ps s (by omega) h

/-- Unfolding: the empty piece list accepts only the empty string. -/
theorem pmatch_nilP (s : List Char) : pmatch [] s = s.isEmpty := rfl

/-- Unfolding: a literal against the empty string. -/
theorem pmatch_lit_nil (c : Char) (ps : List Piece) : pmatch (.lit c :: ps) [] = false := rfl

/-- Unfolding: a literal consumes one equal character. -/
theorem pmatch_lit_cons (c : Char) (ps : List Piece) (a : Char) (t : List Char) :
    pmatch (.lit c :: ps) (a :: t) = (a == c && pmatch ps t) := by
  have h1 : pmatch (.lit c :: ps) (a :: t) =
      (a == c && pmatchF ((Piece.lit c :: ps).length + (a :: t).length) ps t) := rfl
  rw [h1, ← pmatch_eq_pmatchF _ _ _ (by simp; omega)]

/-- Unfolding: `[^/]*` against the empty string. -/
theorem pmatch_starNS_nil (ps : List Piece) : pmatch (.starNoSep :: ps) [] = pmatch ps [] := by
  have h1 : pmatch (.starNoSep :: ps) [] =
      pmatchF ((Piece.starNoSep :: ps).length + ([] : List Char).length) ps [] := rfl
  rw [h1, ← pmatch_eq_pmatchF _ _ _ (by simp)]

/-- Unfolding: `[^/]*` either stops or consumes one non-separator. -/
theorem pmatch_starNS_cons (ps : List Piece) (a : Char) (t : List Char) :
    pmatch (.starNoSep :: ps) (a :: t) =
      (pmatch ps (a :: t) || (a != '/' && pmatch (.starNoSep :: ps) t)) := by
  have h1 : pmatch (.starNoSep :: ps) (a :: t) =
      (pmatchF ((Piece.starNoSep :: ps).length + (a :: t).length) ps (a :: t) ||
        (a != '/' &&
          pmatchF ((Piece.starNoSep :: ps).length + (a :: t).length) (.starNoSep :: ps) t)) := rfl
  rw [h1, ← pmatch_eq_pmatchF _ _ _ (by simp), ← pmatch_eq_pmatchF _ _ _ (by simp)]

/-- Unfolding: `.*/` fails on the empty string. -/
theorem pmatch_starSlash_nil (ps : List Piece) : pmatch (.starSlash :: ps) [] = false := rfl

/-- Unfolding: `.*/` either finds its slash now or consumes one character. -/
theorem pmatch_starSlash_cons (ps : List Piece) (a : Char) (t : List Char) :
    pmatch (.starSlash :: ps) (a :: t) =
      ((a == '/' && pmatch ps t) || pmatch (.starSlash :: ps) t) := by
  have h1 : pmatch (.starSlash :: ps) (a :: t) =
      ((a == '/' && pmatchF ((Piece.starSlash :: ps).length + (a :: t).length) ps t) ||
        pmatchF ((Piece.starSlash :: ps).length + (a :: t).length) (.starSlash :: ps) t) := rfl
  rw [h1, ← pmatch_eq_pmatchF _ _ _ (by simp; omega), ← pmatch_eq_pmatchF _ _ _ (by simp)]

/-- Unfolding: `(?:.+/)?` on the empty string can only take its empty branch. -/
theorem pmatch_anySegs_nil (ps : List Piece) : pmatch (.anySegs :: ps) [] = pmatch ps [] := by
  have h1 : pmatch (.anySegs :: ps) [] =
      pmatchF ((Piece.anySegs :: ps).length + ([] : List Char).length) ps [] := rfl
  rw [h1, ← pmatch_eq_pmatchF _ _ _ (by simp)]

/-- Unfolding: `(?:.+/)?` takes its empty branch or consumes one character and
behaves like `.*/`. -/
theorem pmatch_anySegs_cons (ps : List Piece) (a : Char) (t : List Char) :
    pmatch (.anySegs :: ps) (a :: t) =
      (pmatch ps (a :: t) || pmatch (.starSlash :: ps) t) := by
  have h1 : pmatch (.anySegs :: ps) (a :: t) =
      (pmatchF ((Piece.anySegs :: ps).length + (a :: t).length) ps (a :: t) ||
        pmatchF ((Piece.anySegs :: ps).length + (a :: t).length) (.starSlash :: ps) t) := rfl
  rw [h1, ← pmatch_eq_pmatchF _ _ _ (by simp), ← pmatch_eq_pmatchF _ _ _ (by simp)]

/-- A literal piece sequence accepts exactly its own character list. -/
theorem pmatch_lits_iff (L : List Char) (s : List Char) :
    pmatch (L.map .lit) s = true ↔ s = L := by
  induction L generalizing s with
  | nil =>
    cases s <;> simp [pmatch_nilP]
  | cons c L ih =>
    cases s with
    | nil => simp [pmatch_lit_nil]
    | cons a t => simp [pmatch_lit_cons, ih]

/-- `[^/]*` followed by `ps` accepts exactly a slash-free chunk followed by a
word accepted by `ps`. -/
theorem pmatch_starNS_iff (ps : List Piece) (s : List Char) :
    pmatch (.starNoSep :: ps) s = true ↔
      ∃ u v, s = u ++ v ∧ (∀ c ∈ u, c ≠ '/') ∧ pmatch ps v = true := by
  induction s with
  | nil =>
    rw [pmatch_starNS_nil]
    constructor
    · intro h
      exact ⟨[], [], rfl, by simp, h⟩
    · rintro ⟨u, v, huv, _, hv⟩
      obtain ⟨rfl, rfl⟩ := List.append_eq_nil.mp huv.symm
      exact hv
  | cons a t ih =>
    rw [pmatch_starNS_cons]
    simp only [Bool.or_eq_true, Bool.and_eq_true, bne_iff_ne, ne_eq, ih]
    constructor
    · rintro (h | ⟨ha, u, v, rfl, hu, hv⟩)
      · exact ⟨[], a :: t, rfl, by simp, h⟩
      · refine ⟨a :: u, v, rfl, ?_, hv⟩
        intro c hc
        rcases List.mem_cons.mp hc with rfl | hc
        · exact ha
        · exact hu c hc
    · rintro ⟨u, v, huv, hu, hv⟩
      cases u with
      | nil =>
        simp only [List.nil_append] at huv
        exact Or.inl (huv ▸ hv)
      | cons b u =>
        injection huv with hb ht
        subst hb
        subst ht
        exact Or.inr ⟨hu a (List.mem_cons_self a u), u, v, rfl,
          fun c hc => hu c (List.mem_cons_of_mem a hc), hv⟩

/-- `.*/` followed by `ps` accepts exactly anything-then-slash followed by a
word accepted by `ps`. -/
theorem pmatch_starSlash_iff (ps : List Piece) (s : List Char) :
    pmatch (.starSlash :: ps) s = true ↔
      ∃ u v, s = u ++ '/' :: v ∧ pmatch ps v = true := by
  induction s with
  | nil =>
    rw [pmatch_starSlash_nil]
    constructor
    · intro h; exact absurd h (by simp)
    · rintro ⟨u, v, huv, -⟩
      cases u <;> simp at huv
  | cons a t ih =>
    rw [pmatch_starSlash_cons]
    simp only [Bool.or_eq_true, Bool.and_eq_true, beq_iff_eq, ih]
    constructor
    · rintro (⟨rfl, h⟩ | ⟨u, v, rfl, hv⟩)
      · exact ⟨[], t, rfl, h⟩
      · exact ⟨a :: u, v, rfl, hv⟩
    · rintro ⟨u, v, huv, hv⟩
      cases u with
      | nil =>
        injection huv with hb ht
        subst hb
        subst ht
        exact Or.inl ⟨rfl, hv⟩
      | cons b u =>
        injection huv with hb ht
        subst hb
        subst ht
        exact Or.inr ⟨u, v, rfl, hv⟩

/-- `(?:.+/)?` followed by `ps`: either `ps` accepts directly, or a non-empty
chunk up to a slash is consumed first. -/
theorem pmatch_anySegs_iff (ps : List Piece) (s : List Char) :
    pmatch (.anySegs :: ps) s = true ↔
      (pmatch ps s = true ∨
        ∃ u v, s = u ++ '/' :: v ∧ u ≠ [] ∧ pmatch ps v = true) := by
  cases s with
  | nil =>
    rw [pmatch_anySegs_nil]
    constructor
    · exact Or.inl
    · rintro (h | ⟨u, v, huv, -, -⟩)
      · exact h
      · cases u <;> simp at huv
  | cons a t =>
    rw [pmatch_anySegs_cons]
    simp only [Bool.or_eq_true, pmatch_starSlash_iff]
    constructor
    · rintro (h | ⟨u, v, rfl, hv⟩)
      · exact Or.inl h
      · exact Or.inr ⟨a :: u, v, rfl, by simp, hv⟩
    · rintro (h | ⟨u, v, huv, hu, hv⟩)
      · exact Or.inl h
      · right
        cases u with
        | nil => exact absurd rfl hu
        | cons b u =>
          injection huv with hb ht
          subst hb
          subst ht
          exact ⟨u, v, rfl, hv⟩

/-- `[^/]*\.ext` accepts exactly a slash-free chunk followed by `.ext`. -/
theorem pmatch_star_dot_ext_iff (ext : List Char) (s : List Char) :
    pmatch (.starNoSep :: .lit '.' :: ext.map .lit) s = true ↔
      ∃ w, (∀ c ∈ w, c ≠ '/') ∧ s = w ++ '.' :: ext := by
  have hlits : ∀ v : List Char,
      pmatch (.lit '.' :: ext.map .lit) v = true ↔ v = '.' :: ext := by
    intro v
    have : (Piece.lit '.' :: ext.map .lit) = ('.' :: ext).map .lit := rfl
    rw [this, pmatch_lits_iff]
  rw [pmatch_starNS_iff]
  constructor
  · rintro ⟨u, v, rfl, hu, hv⟩
    exact ⟨u, hu, by rw [(hlits v).mp hv]⟩
  · rintro ⟨w, hw, rfl⟩
    exact ⟨w, '.' :: ext, rfl, hw, (hlits _).mpr rfl⟩

/-- Every character list is slash-free or splits at its last slash. -/
theorem slashFree_or_lastSplit (s : List Char) :
    (∀ c ∈ s, c ≠ '/') ∨ ∃ u v, s = u ++ '/' :: v ∧ (∀ c ∈ v, c ≠ '/') := by
  induction s with
  | nil => exact Or.inl (by simp)
  | cons a t ih =>
    rcases ih with h | ⟨u, v, rfl, hv⟩
    · by_cases ha : a = '/'
      · subst ha
        exact Or.inr ⟨[], t, rfl, h⟩
      · refine Or.inl ?_
        intro c hc
        rcases List.mem_cons.mp hc with rfl | hc
        · exact ha
        · exact h c hc
    · exact Or.inr ⟨a :: u, v, rfl, hv⟩

/-- The translated pattern `**/*.ext` (with `ext` slash-free) accepts exactly
the strings that end in `.ext` and are not a root-level absolute entry (a
leading slash followed by a slash-free remainder). -/
theorem pmatch_extPattern_iff (ext : List Char) (hext : ∀ c ∈ ext, c ≠ '/')
    (s : List Char) :
    pmatch (.anySegs :: .starNoSep :: .lit '.' :: ext.map .lit) s = true ↔
      (('.' :: ext) <:+ s ∧
        ¬(s.head? = some '/' ∧ ∀ c ∈ s.tail, c ≠ '/')) := by
  rw [pmatch_anySegs_iff]
  constructor
  · rintro (h | ⟨u, v, rfl, hu, hv⟩)
    · obtain ⟨w, hw, rfl⟩ := (pmatch_star_dot_ext_iff ext s).mp h
      refine ⟨⟨w, rfl⟩, ?_⟩
      rintro ⟨hhead, -⟩
      cases w with
      | nil => simp at hhead
      | cons b w =>
        simp only [List.cons_append, List.head?_cons, Option.some.injEq] at hhead
        exact hw b (List.mem_cons_self b w) hhead
    · obtain ⟨w, hw, rfl⟩ := (pmatch_star_dot_ext_iff ext v).mp hv
      constructor
      · exact ⟨u ++ '/' :: w, by simp⟩
      · rintro ⟨hhead, htail⟩
        cases u with
        | nil => exact hu rfl
        | cons b u' => exact htail '/' (by simp) rfl
  · rintro ⟨⟨w0, hw0⟩, hbad⟩
    rcases slashFree_or_lastSplit s with hsf | ⟨u, v, hsplit, hv⟩
    · left
      apply (pmatch_star_dot_ext_iff ext s).mpr
      exact ⟨w0, fun c hc => hsf c (by rw [← hw0]; exact List.mem_append_left _ hc), hw0.symm⟩
    · right
      subst hsplit
      have hvSuffix : ('.' :: ext) <:+ v := by
        have hsfx : ('.' :: ext) <:+ u ++ '/' :: v := ⟨w0, hw0⟩
        have hvfx : ('/' :: v) <:+ u ++ '/' :: v := ⟨u, rfl⟩
        rcases List.suffix_or_suffix_of_suffix hsfx hvfx with h1 | h2
        · rcases List.suffix_cons_iff.mp h1 with heq | h1'
          · injection heq with hc _
            exact absurd hc (by decide)
          · exact h1'
        · have hmem : '/' ∈ '.' :: ext := h2.mem (List.mem_cons_self '/' v)
          rcases List.mem_cons.mp hmem with hc | hc
          · exact absurd hc.symm (by decide)
          · exact absurd rfl (hext '/' hc)
      obtain ⟨w, hw⟩ := hvSuffix
      have hu_ne : u ≠ [] := by
        rintro rfl
        exact hbad ⟨rfl, by simpa using hv⟩
      refine ⟨u, v, rfl, hu_ne, ?_⟩
      apply (pmatch_star_dot_ext_iff ext v).mpr
      exact ⟨w, fun c hc => hv c (by rw [← hw]; exact List.mem_append_left _ hc), hw.symm⟩

/-- `splitOnChar` never returns the empty list. -/
theorem splitOnChar_ne_nil (c : Char) (l : List Char) : splitOnChar c l ≠ [] := by
  induction l with
  | nil => simp [splitOnChar]
  | cons a t ih =>
    by_cases ha : a = c
    · simp [splitOnChar, ha]
    · cases hsp : splitOnChar c t with
      | nil => exact absurd hsp ih
      | cons h r => simp [splitOnChar, ha, hsp]

/-- Splitting a separator-free list is the identity (one chunk). -/
theorem splitOnChar_of_noSep (c : Char) (l : List Char) (h : ∀ a ∈ l, a ≠ c) :
    splitOnChar c l = [l] := by
  induction l with
  | nil => rfl
  | cons a t ih =>
    have ha : ¬a = c := h a (List.mem_cons_self a t)
    have ht := ih (fun x hx => h x (List.mem_cons_of_mem a hx))
    simp [splitOnChar, ha, ht]

/-- Splitting at the first separator after a separator-free chunk. -/
theorem splitOnChar_append_sep (c : Char) (u : List Char) (t : List Char)
    (hu : ∀ a ∈ u, a ≠ c) :
    splitOnChar c (u ++ c :: t) = u :: splitOnChar c t := by
  induction u with
  | nil => simp [splitOnChar]
  | cons a u ih =>
    have ha : ¬a = c := hu a (List.mem_cons_self a u)
    have ht := ih (fun x hx => hu x (List.mem_cons_of_mem a hx))
    simp [splitOnChar, ha, ht]

/-- `fnmatch` translation of a part without wildcards: all literals. -/
theorem fnmatchPieces_of_plain (l : List Char) (h : ∀ c ∈ l, c ≠ '*' ∧ c ≠ '?') :
    fnmatchPieces l = l.map .lit := by
  induction l with
  | nil => rfl
  | cons a t ih =>
    have ha := h a (List.mem_cons_self a t)
    have ht := ih (fun x hx => h x (List.mem_cons_of_mem a hx))
    simp [fnmatchPieces, ha.1, ha.2, ht]

/-- The pattern `**/*.ext` (with `ext` free of `/`, `*`, `?`) is already in
normal form and translates to `(?:.+/)?[^/]*\.ext`. -/
theorem translatePat_extPattern (ext : List Char)
    (hext : ∀ c ∈ ext, c ≠ '/' ∧ c ≠ '*' ∧ c ≠ '?') :
    posixNormalize ("**/*.".data ++ ext) = "**/*.".data ++ ext ∧
    translatePat ("**/*.".data ++ ext) =
      .anySegs :: .starNoSep :: .lit '.' :: ext.map .lit := by
  have hsf : ∀ a ∈ ('*' :: '.' :: ext), a ≠ '/' := by
    intro a ha
    rcases List.mem_cons.mp ha with rfl | ha
    · decide
    rcases List.mem_cons.mp ha with rfl | ha
    · decide
    · exact (hext a ha).1
  have hsplit : splitOnChar '/' ("**/*.".data ++ ext) =
      [['*', '*'], '*' :: '.' :: ext] := by
    have h1 : "**/*.".data ++ ext = ['*', '*'] ++ '/' :: ('*' :: '.' :: ext) := rfl
    rw [h1, splitOnChar_append_sep '/' ['*', '*'] _ (by decide),
      splitOnChar_of_noSep '/' _ hsf]
  have hne2 : ('*' :: '.' :: ext) ≠ ['*', '*'] := by
    intro h
    injection h with _ h
    injection h with hc _
    exact absurd hc (by decide)
  have hne1 : ('*' :: '.' :: ext) ≠ ['*'] := by
    intro h
    injection h with _ h
    exact absurd h (by simp)
  have hfn : fnmatchPieces ('*' :: '.' :: ext) =
      .starNoSep :: .lit '.' :: ext.map .lit := by
    show (if ('*' : Char) = '*' then
        match '.' :: ext with
        | '*' :: _ => fnmatchPieces ('.' :: ext)
        | _ => .starNoSep :: fnmatchPieces ('.' :: ext)
      else if ('*' : Char) = '?' then .notSep :: fnmatchPieces ('.' :: ext)
      else .lit '*' :: fnmatchPieces ('.' :: ext)) = _
    rw [if_pos rfl]
    show Piece.starNoSep :: fnmatchPieces ('.' :: ext) = _
    have : fnmatchPieces ('.' :: ext) = .lit '.' :: fnmatchPieces ext := by
      simp [fnmatchPieces]
    rw [this, fnmatchPieces_of_plain ext (fun c hc => ⟨(hext c hc).2.1, (hext c hc).2.2⟩)]
  have hnorm : posixNormalize ("**/*.".data ++ ext) = "**/*.".data ++ ext := by
    show (let root := (posixSplitRoot ("**/*.".data ++ ext)).1
      let rest := (posixSplitRoot ("**/*.".data ++ ext)).2
      let parsed := (splitOnChar '/' rest).filter (fun x => !x.isEmpty && x != ['.'])
      if root.isEmpty && parsed.isEmpty then ['.']
      else root ++ joinSlash parsed) = _
    have hroot : posixSplitRoot ("**/*.".data ++ ext) = ([], "**/*.".data ++ ext) := rfl
    simp only [hroot, hsplit]
    have hkeep1 : (!(['*', '*'] : List Char).isEmpty && (['*', '*'] : List Char) != ['.']) =
        true := by decide
    have hkeep2 : (!('*' :: '.' :: ext).isEmpty && ('*' :: '.' :: ext) != ['.']) = true := by
      simp [bne_iff_ne]
    simp only [List.filter, hkeep1, hkeep2]
    simp [joinSlash]
  refine ⟨hnorm, ?_⟩
  unfold translatePat
  rw [hsplit]
  show (if (['*', '*'] : List Char) = ['*'] then [.notSep, .starNoSep, .lit '/']
    else if (['*', '*'] : List Char) = ['*', '*'] then
      (if ('*' :: '.' :: ext) = ['*', '*'] then [] else [.anySegs])
    else fnmatchPieces ['*', '*'] ++ [.lit '/']) ++ translateParts [('*' :: '.' :: ext)] = _
  rw [if_neg (by decide), if_pos rfl, if_neg hne2]
  show [Piece.anySegs] ++
      (if ('*' :: '.' :: ext) = ['*'] then [.notSep, .starNoSep]
        else if ('*' :: '.' :: ext) = ['*', '*'] then [.starAny]
        else fnmatchPieces ('*' :: '.' :: ext)) = _
  rw [if_neg hne1, if_neg hne2, hfn]
  rfl

/-- Claim C8, counterexample: matching is done on the `PurePath`-normalised
path, not the raw string.  `"a.ext/."` does not end in `".ext"` yet matches
`"**/*.ext"` (its normal form is `"a.ext"`), and `"/b.ext"` ends in `".ext"`
yet does not match (the translated `(?:.+/)?` cannot consume a lone leading
slash).  Both sides of the claimed equivalence fail. -/
theorem c8_counterexample :
    filter_paths_with_patterns ["a.ext/.", "/b.ext"] ["**/*.ext"] = ["a.ext/."] ∧
    ¬(".ext".data <:+ "a.ext/.".data) ∧ (".ext".data <:+ "/b.ext".data) :=
  ⟨rfl, by decide, by decide⟩

/-- Claim C8, amended: for every path string and every extension free of
separator and wildcard characters, the path matches `"**/*.ext"` under
`filter_paths_with_patterns` iff its `PurePath`-normalised form ends in
`".ext"` and is not a root-level absolute entry (a leading slash with no
further slash); the filter keeps exactly the matching paths. -/
theorem c8_match_ext (ext p : String)
    (hext : ∀ c ∈ ext.data, c ≠ '/' ∧ c ≠ '*' ∧ c ≠ '?' ∧ c ≠ '[') :
    (fullMatchStr p ("**/*." ++ ext) = true ↔
      (('.' :: ext.data) <:+ posixNormalize p.data ∧
        ¬((posixNormalize p.data).head? = some '/' ∧
          ∀ c ∈ (posixNormalize p.data).tail, c ≠ '/'))) ∧
    filter_paths_with_patterns [p] ["**/*." ++ ext] =
      (if fullMatchStr p ("**/*." ++ ext) = true then [p] else []) := by
  have hext3 : ∀ c ∈ ext.data, c ≠ '/' ∧ c ≠ '*' ∧ c ≠ '?' :=
    fun c hc => ⟨(hext c hc).1, (hext c hc).2.1, (hext c hc).2.2.1⟩
  have hdata : ("**/*." ++ ext).data = "**/*.".data ++ ext.data := String.data_append _ _
  obtain ⟨hnorm, htrans⟩ := translatePat_extPattern ext.data hext3
  constructor
  · show pmatch (translatePat (posixNormalize ("**/*." ++ ext).data))
        (posixNormalize p.data) = true ↔ _
    rw [hdata, hnorm, htrans]
    exact pmatch_extPattern_iff ext.data (fun c hc => (hext c hc).1) _
  · have hfast : ¬(["**/*." ++ ext] = ([] : List String) ∨
        ["**/*." ++ ext] = ["**/*"]) := by
      rintro (h | h)
      · exact absurd h (by simp)
      · have h2 : ("**/*." ++ ext) = "**/*" := by
          injection h with hh ht
        have h3 : ("**/*." ++ ext).data.length = ("**/*" : String).data.length := by
          rw [h2]
        rw [hdata] at h3
        simp at h3
    unfold filter_paths_with_patterns
    rw [if_neg hfast]
    cases hfm : fullMatchStr p ("**/*." ++ ext) <;> simp [List.filter, hfm]

/-- Claim C8, witness for the amended theorem at extension `"py"` and path
`"src/m.py"`. -/
theorem c8_witness :
    (fullMatchStr "src/m.py" ("**/*." ++ "py") = true ↔
      (('.' :: "py".data) <:+ posixNormalize "src/m.py".data ∧
        ¬((posixNormalize "src/m.py".data).head? = some '/' ∧
          ∀ c ∈ (posixNormalize "src/m.py".data).tail, c ≠ '/'))) ∧
    filter_paths_with_patterns ["src/m.py"] ["**/*." ++ "py"] =
      (if fullMatchStr "src/m.py" ("**/*." ++ "py") = true then ["src/m.py"] else []) :=
  c8_match_ext "py" "src/m.py" (by decide)
